import Mathlib

/-!
Verification of the MCQ document parser (`src/doc_parser.py`).

The source is a line-oriented Python script.  We embed it shallowly:

* a paragraph / line is a `List Char` (`Line`); docx paragraph texts contain
  no newline characters, so the regex metacharacter `.` is modelled as
  "any character";
* Python regexes are translated to executable Lean functions over `List Char`,
  following the Python `re` semantics (anchored `^` because none of the
  patterns is compiled with `MULTILINE`, greedy `\s+`/`\s*` with the one
  backtracking case that actually arises, `\b` word boundaries);
* `\s` and `str.strip()` are modelled over the ASCII whitespace characters
  space, tab, newline, carriage return, vertical tab and form feed, and
  `\w`, `str.lower()` over ASCII, matching the data the script processes;
* the `while i < len(lines)` loop of `parse_questions` is translated to a
  fuel-indexed recursion (`parseLoopFuel`); the loop's only non-advancing
  step closes the open question, so fuel `2 * length + 2` always suffices
  (proved below, which is exactly the termination claim about the loop);
* the per-list numbering counters of `process_docx` (a
  `defaultdict(lambda: defaultdict(int))` plus a `last_level_for_num`
  map defaulting to `-1`) are modelled as total functions, with key
  deletion modelled as resetting the value to `0` (observationally equal
  for a `defaultdict(int)`).
-/

/-- A flattened paragraph / line of text. -/
abbrev Line := List Char

/-- Coerce a string literal to the `List Char` representation. -/
def str (s : String) : Line := s.data

/-- Python `\s` / `str.strip()` whitespace (ASCII): space, `\t`, `\n`, `\r`,
`\x0b` (vertical tab), `\x0c` (form feed). -/
def pySpace (c : Char) : Bool :=
  c = ' ' ∨ c = '\t' ∨ c = '\n' ∨ c = '\r' ∨ c = '\x0b' ∨ c = '\x0c'

/-- Python `\w` (ASCII): letters, digits and underscore. -/
def isWordChar (c : Char) : Bool := c.isAlphanum ∨ c = '_'

/-- The character class `[a-eA-E]` used for option letters and answers. -/
def isAE (c : Char) : Bool :=
  c = 'a' ∨ c = 'b' ∨ c = 'c' ∨ c = 'd' ∨ c = 'e' ∨
  c = 'A' ∨ c = 'B' ∨ c = 'C' ∨ c = 'D' ∨ c = 'E'

/-- Python `str.strip()`: drop leading and trailing whitespace. -/
def strip (l : Line) : Line :=
  ((l.dropWhile pySpace).reverse.dropWhile pySpace).reverse

/-- Case-insensitive prefix test: does `l` start with the (lowercase)
pattern `pat`?  Models a literal word inside a `(?i)` regex. -/
def startsCI : List Char → Line → Bool
  | [], _ => true
  | _ :: _, [] => false
  | p :: ps, c :: cs => c.toLower = p && startsCI ps cs

/-- One alternative of `NON_MCQ_SECTION` matching at the head of `l`:
`w1` then `\s*` then `w2` (both case-insensitive). -/
def pairAt (w1 w2 : List Char) (l : Line) : Bool :=
  startsCI w1 l && startsCI w2 ((l.drop w1.length).dropWhile pySpace)

/-- `true\s*or\s*false` matching at the head of `l` (case-insensitive). -/
def trueOrFalseAt (l : Line) : Bool :=
  startsCI (str "true") l &&
    (let r := (l.drop 4).dropWhile pySpace
     startsCI (str "or") r &&
       startsCI (str "false") ((r.drop 2).dropWhile pySpace))

/-- Does some alternative of `NON_MCQ_SECTION` match at the head of `l`? -/
def nonMcqAt (l : Line) : Bool :=
  startsCI (str "essay") l || trueOrFalseAt l || startsCI (str "true/false") l ||
    pairAt (str "short") (str "answer") l || pairAt (str "long") (str "answer") l

/-- `NON_MCQ_SECTION.search`: the pattern
`(?i)(essay|true\s*or\s*false|true/false|short\s*answer|long\s*answer)`
matches at some position of the line. -/
def nonMcq : Line → Bool
  | [] => false
  | c :: cs => nonMcqAt (c :: cs) || nonMcq cs

/-- `re.search(r"(?i)^answer\s*key", ln)`: anchored at the line start (the
pattern is not compiled with `MULTILINE`). -/
def answerKeyMarker (l : Line) : Bool :=
  startsCI (str "answer") l && startsCI (str "key") ((l.drop 6).dropWhile pySpace)

/-- Second branch `^(\d+[\.\)]\s+\S.*)` of `QUESTION_START`: digits, a dot or
closing parenthesis, at least one whitespace, then a non-whitespace
character. -/
def numberedStart (l : Line) : Bool :=
  let ds := l.takeWhile Char.isDigit
  !ds.isEmpty &&
    match l.drop ds.length with
    | [] => false
    | c :: rest =>
      (c = '.' || c = ')') &&
        (let sp := rest.takeWhile pySpace
         !sp.isEmpty && !(rest.drop sp.length).isEmpty)

/-- The word boundary `\b` after `question(\s*\d+)?`: either the next
character is a non-word character (or the line ends), or (taking the
optional digit group with zero intervening spaces) a digit run follows,
ended by a non-word character or the end of the line. -/
def questionBoundary : Line → Bool
  | [] => true
  | c :: rest =>
    if !isWordChar c then true
    else if c.isDigit then
      match (c :: rest).drop ((c :: rest).takeWhile Char.isDigit).length with
      | [] => true
      | c' :: _ => !isWordChar c'
    else false

/-- `QUESTION_START.search(ln)` for the pattern
`(?i)^(question(\s*\d+)?)\b|^(\d+[\.\)]\s+\S.*)` (anchored, so `search`
behaves like `match`). -/
def questionStart (l : Line) : Bool :=
  (startsCI (str "question") l && questionBoundary (l.drop 8)) || numberedStart l

/-- `OPTION_NUMERIC.match(ln)` for `^\s*\d+[\.\)]\s+(.+)$`; returns the
captured group.  `\s+` is greedy; when everything after the separator is
whitespace the engine backtracks and the group captures the final
whitespace character. -/
def optNumeric (l : Line) : Option Line :=
  let l1 := l.dropWhile pySpace
  let ds := l1.takeWhile Char.isDigit
  if ds.isEmpty then none
  else
    match l1.drop ds.length with
    | [] => none
    | c :: rest =>
      if c = '.' || c = ')' then
        let sp := rest.takeWhile pySpace
        if sp.isEmpty then none
        else
          let g := rest.drop sp.length
          if !g.isEmpty then some g
          else if 2 ≤ sp.length then some [sp.getLastD ' ']
          else none
      else none

/-- `OPTION_LETTER.match(ln)` for `^\s*[a-eA-E][\.\)]\s*(.+)$`; returns the
captured group (with the same greedy-then-backtrack behaviour for `\s*`). -/
def optLetter (l : Line) : Option Line :=
  match l.dropWhile pySpace with
  | [] => none
  | c :: rest =>
    if isAE c then
      match rest with
      | [] => none
      | c2 :: rest2 =>
        if c2 = '.' || c2 = ')' then
          let sp := rest2.takeWhile pySpace
          let g := rest2.drop sp.length
          if !g.isEmpty then some g
          else if !sp.isEmpty then some [sp.getLastD ' ']
          else none
        else none
    else none

/-- `clean_option_text`: strip the line, strip a letter-option prefix, else a
numeric-option prefix, else return the stripped line unchanged. -/
def clean_option_text (t : Line) : Line :=
  let t := strip t
  match optLetter t with
  | some g => strip g
  | none =>
    match optNumeric t with
    | some g => strip g
    | none => t

/-- A parsed question record: `{"number": .., "question": .., "options": ..}`. -/
structure Question where
  number : Nat
  question : Line
  options : List Line
deriving Repr, DecidableEq

/-- The action `parse_questions` takes for one line of input. -/
inductive Step where
  /-- Break out of the loop (non-MCQ section or answer-key marker). -/
  | stop : Step
  /-- Consume the line, continuing with the given state. -/
  | next (current : Option Question) (qs : List Question) (qnum : Nat) : Step
  /-- Close the current question and reprocess the same line (`continue`
  without advancing the index). -/
  | reprocess (qs : List Question) (qnum : Nat) : Step
deriving Repr, DecidableEq

/-- The body of the `while` loop of `parse_questions`, classifying one line
in the current state. -/
def stepLine (ln : Line) (current : Option Question) (qs : List Question)
    (qnum : Nat) : Step :=
  if nonMcq ln || answerKeyMarker ln then .stop
  else
    match current with
    | some c =>
      if (optNumeric ln).isSome || (optLetter ln).isSome then
        .next (some { c with options := c.options ++ [clean_option_text ln] }) qs qnum
      else if questionStart ln then .reprocess (qs ++ [c]) qnum
      else if c.options = [] then
        .next (some { c with question := strip (c.question ++ ' ' :: strip ln) }) qs qnum
      else
        .next (some { c with
          options := c.options.dropLast ++
            [strip (c.options.getLastD [] ++ ' ' :: strip ln)] }) qs qnum
    | none =>
      if questionStart ln then .next (some ⟨qnum, strip ln, []⟩) qs (qnum + 1)
      else if (optNumeric ln).isSome || (optLetter ln).isSome then
        if qs = [] then .next (some ⟨qnum, [], [clean_option_text ln]⟩) qs (qnum + 1)
        else
          .next none
            (qs.dropLast ++
              [{ qs.getLastD ⟨0, [], []⟩ with
                 options := (qs.getLastD ⟨0, [], []⟩).options ++ [clean_option_text ln] }])
            qnum
      else .next none qs qnum

/-- The `while i < len(lines)` loop of `parse_questions`, indexed by fuel.
The result includes the final `if current: qs.append(current)`.  The only
step that does not consume a line is `reprocess`, which turns the state
from an open question into no open question, so the loop always terminates;
`parseLoopFuel_isSome` below shows fuel `2 * length + 2` suffices. -/
def parseLoopFuel : Nat → List Line → Option Question → List Question → Nat →
    Option (List Question)
  | 0, _, _, _, _ => none
  | _ + 1, [], current, qs, _ => some (qs ++ current.toList)
  | fuel + 1, ln :: rest, current, qs, qnum =>
    match stepLine ln current qs qnum with
    | .stop => some (qs ++ current.toList)
    | .next cur' qs' qn' => parseLoopFuel fuel rest cur' qs' qn'
    | .reprocess qs' qn' => parseLoopFuel fuel (ln :: rest) none qs' qn'

/-- Normalisation at the end of `parse_questions`: pad the option list with
empty strings to five entries, then keep the first five (`opts[:5]`). -/
def normalizeOptions (opts : List Line) : List Line :=
  (opts ++ List.replicate (5 - opts.length) []).take 5

/-- `parse_questions(lines)`. -/
def parse_questions (lines : List Line) : List Question :=
  match parseLoopFuel (2 * lines.length + 2) lines none [] 1 with
  | some qs => qs.map fun q => { q with options := normalizeOptions q.options }
  | none => []

/-- `re.fullmatch(r"[A-Ea-e]", ln)`. -/
def singleLetterAns (l : Line) : Bool :=
  match l with
  | [c] => isAE c
  | _ => false

/-- `re.match(r"\d+[\.\)]\s*([a-eA-E])", ln)`: the captured letter. -/
def numDotAns (l : Line) : Option Char :=
  let ds := l.takeWhile Char.isDigit
  if ds.isEmpty then none
  else
    match l.drop ds.length with
    | [] => none
    | c :: rest =>
      if c = '.' || c = ')' then
        match rest.dropWhile pySpace with
        | c2 :: _ => if isAE c2 then some c2.toLower else none
        | [] => none
      else none

/-- `re.match(r"\d+\s+([a-eA-E])", ln)`: the captured letter. -/
def numSpaceAns (l : Line) : Option Char :=
  let ds := l.takeWhile Char.isDigit
  if ds.isEmpty then none
  else
    let rest := l.drop ds.length
    let sp := rest.takeWhile pySpace
    if sp.isEmpty then none
    else
      match rest.drop sp.length with
      | c :: _ => if isAE c then some c.toLower else none
      | [] => none

/-- The scanning loop of `parse_answer_key` over the lines after the
`answer key` marker: skip blank lines, stop at a non-MCQ section, and
collect letters matched by the three positional rules. -/
def answerScan : List Line → List Char
  | [] => []
  | ln :: rest =>
    let l := strip ln
    if l.isEmpty then answerScan rest
    else if nonMcq l then []
    else if singleLetterAns l then (l.getD 0 'a').toLower :: answerScan rest
    else
      match numDotAns l with
      | some c => c :: answerScan rest
      | none =>
        match numSpaceAns l with
        | some c => c :: answerScan rest
        | none => answerScan rest

/-- The first loop of `parse_answer_key`: find the first line matching
`(?i)^answer\s*key` and return the lines after it (`lines[start:]` with
`start = i + 1`), or `none` when no line matches. -/
def answerKeyTail : List Line → Option (List Line)
  | [] => none
  | ln :: rest => if answerKeyMarker ln then some rest else answerKeyTail rest

/-- `parse_answer_key(lines)`: find the first line matching
`(?i)^answer\s*key`; if none, return `[]`, else scan the following lines. -/
def parse_answer_key (lines : List Line) : List Char :=
  match answerKeyTail lines with
  | none => []
  | some region => answerScan region

/-- The option letters `["a", "b", "c", "d", "e"]` of `create_output_doc`. -/
def letters : List Char := ['a', 'b', 'c', 'd', 'e']

/-- The paragraphs `create_output_doc` writes for one question:
`"Question {n}) {text}"`, one `"{letter}. {opt}"` per option (zipped with
the letters), `"Answer: {answers[n-1]}"` when `n - 1 < len(answers)`, and a
blank separator.  Question numbers produced by the parser start at 1, so
`n - 1` is modelled with natural subtraction. -/
def questionBlock (answers : List Char) (q : Question) : List Line :=
  (str "Question " ++ (Nat.repr q.number).data ++ str ") " ++ q.question) ::
    (letters.zip q.options).map (fun p => p.1 :: str ". " ++ p.2) ++
    (if q.number - 1 < answers.length then
      [str "Answer: " ++ [answers.getD (q.number - 1) 'a']]
    else []) ++ [[]]

/-- `create_output_doc` as the ordered sequence of paragraph texts it writes
(the page break before the non-MCQ tail is not a text paragraph and is not
modelled). -/
def create_output_doc (questions : List Question) (answers : List Char)
    (non_mcq_start_index : Nat) (original_lines : List Line) : List Line :=
  questions.flatMap (questionBlock answers) ++
    (if non_mcq_start_index < original_lines.length then
      original_lines.drop non_mcq_start_index
    else [])

/-- The result of one run of `process_docx`. -/
structure DocResult where
  questions : List Question
  answers : List Char
  nonMcqIndex : Nat
  output : List Line
deriving Repr, DecidableEq

/-- `process_docx` restricted to documents whose paragraphs carry no list
numbering metadata (`numPr is None`), so each line is the paragraph text
itself: record the index of the first non-MCQ paragraph (defaulting to the
number of lines), parse the answer key from the full line list, parse
questions from the lines before the non-MCQ index, and assemble the
output document. -/
def process_docx_plain (texts : List Line) : DocResult :=
  let lines := texts
  let non_mcq_index := lines.findIdx nonMcq
  let answers := parse_answer_key lines
  let questions := parse_questions (lines.take non_mcq_index)
  ⟨questions, answers, non_mcq_index, create_output_doc questions answers non_mcq_index lines⟩

/-! ### The numbering counters of `process_docx` -/

/-- The counter state of `process_docx`: `counters[numId][ilvl]` (a
`defaultdict` of `defaultdict(int)`) and `last_level_for_num[numId]`
(defaulting to `-1`).  Deleting a key of a `defaultdict(int)` is modelled
as resetting its value to `0`. -/
structure NumCtState where
  counters : Nat → Nat → Nat
  last : Nat → Int

/-- The initial counter state. -/
def initNumCt : NumCtState := ⟨fun _ _ => 0, fun _ => -1⟩

/-- One numbered paragraph with list id `numId` at indent level `ilvl`:
if the level is not deeper than the last-seen level for this list (or the
list has not been seen), discard the counters of all strictly deeper
levels; then increment this level's counter and record the level.
Returns the new state and the counter value used for the prefix. -/
def numStep (st : NumCtState) (numId ilvl : Nat) : NumCtState × Nat :=
  let c1 : Nat → Nat → Nat :=
    if st.last numId = -1 ∨ (ilvl : Int) ≤ st.last numId then
      fun n l => if n = numId ∧ ilvl < l then 0 else st.counters n l
    else st.counters
  let c2 : Nat → Nat → Nat :=
    fun n l => if n = numId ∧ l = ilvl then c1 n l + 1 else c1 n l
  (⟨c2, fun n => if n = numId then (ilvl : Int) else st.last n⟩, c2 numId ilvl)

/-- The counter values emitted for a sequence of numbered paragraphs
(given as `(numId, ilvl)` pairs), starting from state `st`. -/
def numEmitFrom (st : NumCtState) : List (Nat × Nat) → List Nat
  | [] => []
  | (n, l) :: rest =>
    let r := numStep st n l
    r.2 :: numEmitFrom r.1 rest

/-- The counter values emitted for a whole document. -/
def numEmit (ps : List (Nat × Nat)) : List Nat := numEmitFrom initNumCt ps

/-- The subtractive Roman numeral table of `to_roman`. -/
def romanTable : List (Nat × Line) :=
  [(1000, str "M"), (900, str "CM"), (500, str "D"), (400, str "CD"),
   (100, str "C"), (90, str "XC"), (50, str "L"), (40, str "XL"),
   (10, str "X"), (9, str "IX"), (5, str "V"), (4, str "IV"), (1, str "I")]

/-- The `while n >= v` loop of `to_roman` for one table entry appends `r`
exactly `n / v` times and leaves `n % v`. -/
def to_roman_go : Nat → List (Nat × Line) → Line
  | _, [] => []
  | n, (v, r) :: rest => (List.replicate (n / v) r).flatten ++ to_roman_go (n % v) rest

/-- `to_roman(n)`. -/
def to_roman (n : Nat) : Line := to_roman_go n romanTable

/-- `convert_level_to_number(n, fmt)`; `fmt` may be `None` (the numbering
part had no `numFmt`), in which case the final `return str(n)` applies. -/
def convert_level_to_number (n : Nat) (fmt : Option String) : Line :=
  if fmt = some "decimal" then (Nat.repr n).data
  else if fmt = some "lowerLetter" then [Char.ofNat ('a'.toNat + (n - 1))]
  else if fmt = some "upperLetter" then [Char.ofNat ('A'.toNat + (n - 1))]
  else if fmt = some "lowerRoman" then (to_roman n).map Char.toLower
  else if fmt = some "upperRoman" then to_roman n
  else (Nat.repr n).data

/-! ### A spec-side definition, for comparison only -/

/-- Split a line into maximal whitespace-free tokens. -/
def splitWsGo : List Char → List Char → List Line
  | [], acc => if acc.isEmpty then [] else [acc.reverse]
  | c :: cs, acc =>
    if pySpace c then
      if acc.isEmpty then splitWsGo cs [] else acc.reverse :: splitWsGo cs []
    else splitWsGo cs (c :: acc)

/-- Split a line into whitespace-separated tokens. -/
def splitWs (l : Line) : List Line := splitWsGo l []

/-- Spec-side definition, following the spec's words (not the source), for
comparison with `parse_answer_key`: "fall back to scanning the whole
answer-region text for every isolated a-e token and assign them
sequentially to question numbers 1..k". -/
def specFallbackLetters (region : List Line) : List Char :=
  ((region.flatMap splitWs).filter singleLetterAns).map fun t => (t.getD 0 'a').toLower

/-- The normalized output lines `create_output_doc` generates for a list of
questions when the answer list is empty and there is no non-MCQ tail. -/
def outQuestionLines (qs : List Question) : List Line :=
  create_output_doc qs [] 0 []

/-! ## Basic lemmas about `strip` -/

theorem length_dropWhile_le (p : Char → Bool) (l : List Char) :
    (l.dropWhile p).length ≤ l.length :=
  (List.dropWhile_sublist p).length_le

theorem length_strip_le (l : Line) : (strip l).length ≤ l.length := by
  unfold strip
  calc ((l.dropWhile pySpace).reverse.dropWhile pySpace).reverse.length
      = ((l.dropWhile pySpace).reverse.dropWhile pySpace).length := List.length_reverse _
    _ ≤ (l.dropWhile pySpace).reverse.length := length_dropWhile_le _ _
    _ = (l.dropWhile pySpace).length := List.length_reverse _
    _ ≤ l.length := length_dropWhile_le _ _

theorem lstrip_eq_self {l : Line} (h : pySpace (l.headD 'x') = false) :
    l.dropWhile pySpace = l := by
  cases l with
  | nil => rfl
  | cons c cs =>
    simp only [List.headD_eq_head?_getD, List.head?_cons, Option.getD_some] at h
    simp [List.dropWhile_cons, h]

theorem strip_eq_self {l : Line} (h1 : pySpace (l.headD 'x') = false)
    (h2 : pySpace (l.getLastD 'x') = false) : strip l = l := by
  unfold strip
  rw [lstrip_eq_self h1]
  have hr : pySpace (l.reverse.headD 'x') = false := by
    rwa [List.headD_eq_head?_getD, List.head?_reverse, ← List.getLastD_eq_getLast?]
  rw [lstrip_eq_self hr, List.reverse_reverse]

theorem dropWhile_eq_self_head {p : Char → Bool} {c : Char} {cs : List Char}
    (h : List.dropWhile p (c :: cs) = c :: cs) : p c = false := by
  by_contra hb
  have hc : p c = true := by revert hb; cases p c <;> simp
  rw [List.dropWhile_cons, if_pos hc] at h
  have := length_dropWhile_le p cs
  have := congrArg List.length h
  simp at this
  omega

theorem dropWhile_eq_self_of_length {p : Char → Bool} :
    ∀ {l : List Char}, (l.dropWhile p).length = l.length → l.dropWhile p = l := by
  intro l h
  cases l with
  | nil => rfl
  | cons c cs =>
    by_cases hc : p c = true
    · rw [List.dropWhile_cons, if_pos hc] at h
      have := length_dropWhile_le p cs
      simp at h
      omega
    · rw [List.dropWhile_cons, if_neg hc]

theorem strip_self_facts {l : Line} (h : strip l = l) :
    pySpace (l.headD 'x') = false ∧ pySpace (l.getLastD 'x') = false := by
  have hlen1 : (l.dropWhile pySpace).length = l.length := by
    have h1 := length_strip_le l
    have h2 := length_dropWhile_le pySpace l
    have h3 : (strip l).length ≤ (l.dropWhile pySpace).length := by
      unfold strip
      calc ((l.dropWhile pySpace).reverse.dropWhile pySpace).reverse.length
          = ((l.dropWhile pySpace).reverse.dropWhile pySpace).length := List.length_reverse _
        _ ≤ (l.dropWhile pySpace).reverse.length := length_dropWhile_le _ _
        _ = (l.dropWhile pySpace).length := List.length_reverse _
    rw [h] at h3
    omega
  have hdw : l.dropWhile pySpace = l := dropWhile_eq_self_of_length hlen1
  have hrev : l.reverse.dropWhile pySpace = l.reverse := by
    unfold strip at h
    rw [hdw] at h
    have := congrArg List.reverse h
    rwa [List.reverse_reverse] at this
  constructor
  · cases l with
    | nil => decide
    | cons c cs =>
      simp only [List.headD_eq_head?_getD, List.head?_cons, Option.getD_some]
      exact dropWhile_eq_self_head hdw
  · cases hl : l.reverse with
    | nil =>
      have : l = [] := by
        have := congrArg List.reverse hl
        simpa using this
      subst this; decide
    | cons c cs =>
      have hc : pySpace c = false := dropWhile_eq_self_head (hl ▸ hrev)
      have : l.getLastD 'x' = c := by
        rw [List.getLastD_eq_getLast?, ← List.head?_reverse, hl]
        rfl
      rw [this]; exact hc

theorem strip_append_space {o : Line} (ho : o ≠ []) (h : strip o = o) :
    strip (o ++ [' ']) = o := by
  obtain ⟨h1, h2⟩ := strip_self_facts h
  unfold strip
  have hh : pySpace ((o ++ [' ']).headD 'x') = false := by
    cases o with
    | nil => exact absurd rfl ho
    | cons c cs => simpa using by simpa using h1
  rw [lstrip_eq_self hh, List.reverse_append]
  simp only [List.reverse_cons, List.reverse_nil, List.nil_append, List.singleton_append]
  rw [List.dropWhile_cons, if_pos (by decide)]
  have hr : pySpace (o.reverse.headD 'x') = false := by
    rwa [List.headD_eq_head?_getD, List.head?_reverse, ← List.getLastD_eq_getLast?]
  rw [lstrip_eq_self hr, List.reverse_reverse]

/-! ## Lemmas about the step function of `parse_questions` -/

theorem stepLine_stop {ln : Line} (h : (nonMcq ln || answerKeyMarker ln) = true)
    (cur : Option Question) (qs : List Question) (qn : Nat) :
    stepLine ln cur qs qn = .stop := by
  unfold stepLine
  rw [if_pos h]

theorem stepLine_none_not_reprocess (ln : Line) (qs : List Question) (qn : Nat)
    (qs' : List Question) (qn' : Nat) :
    stepLine ln none qs qn ≠ .reprocess qs' qn' := by
  unfold stepLine
  split
  · simp
  · split
    next c heq => exact Option.noConfusion heq
    next heq =>
      split
      · simp
      · split
        · split <;> simp
        · simp

theorem stepLine_isSome_of_reprocess {ln : Line} {cur : Option Question}
    {qs qs' : List Question} {qn qn' : Nat}
    (h : stepLine ln cur qs qn = .reprocess qs' qn') : cur.isSome := by
  cases cur with
  | none => exact absurd h (stepLine_none_not_reprocess ln qs qn qs' qn')
  | some c => rfl

/-! ## Fuel lemmas for the `parse_questions` loop -/

theorem parseLoopFuel_isSome :
    ∀ (fuel : Nat) (lines : List Line) (cur : Option Question)
      (qs : List Question) (qn : Nat),
      2 * lines.length + (if cur.isSome then 1 else 0) < fuel →
      (parseLoopFuel fuel lines cur qs qn).isSome = true := by
  intro fuel
  induction fuel with
  | zero => intro lines cur qs qn h; omega
  | succ f ih =>
    intro lines cur qs qn h
    match lines with
    | [] => simp [parseLoopFuel]
    | ln :: rest =>
      rw [parseLoopFuel]
      cases hstep : stepLine ln cur qs qn with
      | stop => simp
      | next cur' qs' qn' =>
        apply ih
        have h1 : (if cur'.isSome then 1 else 0) ≤ 1 := by split <;> omega
        have h0 : (0:Nat) ≤ (if cur.isSome then 1 else 0) := by split <;> omega
        simp only [List.length_cons] at h
        omega
      | reprocess qs' qn' =>
        apply ih
        have hc := stepLine_isSome_of_reprocess hstep
        rw [hc] at h
        simp only [if_true] at h
        simp only [Option.isSome_none, Bool.false_eq_true, if_false]
        omega

theorem parseLoopFuel_congr :
    ∀ (f1 f2 : Nat) (lines : List Line) (cur : Option Question)
      (qs : List Question) (qn : Nat),
      2 * lines.length + (if cur.isSome then 1 else 0) < f1 →
      2 * lines.length + (if cur.isSome then 1 else 0) < f2 →
      parseLoopFuel f1 lines cur qs qn = parseLoopFuel f2 lines cur qs qn := by
  intro f1
  induction f1 with
  | zero => intro f2 lines cur qs qn h1 _; omega
  | succ f ih =>
    intro f2 lines cur qs qn h1 h2
    match f2 with
    | 0 => omega
    | g + 1 =>
      match lines with
      | [] => rfl
      | ln :: rest =>
        rw [parseLoopFuel, parseLoopFuel]
        cases hstep : stepLine ln cur qs qn with
        | stop => rfl
        | next cur' qs' qn' =>
          apply ih
          · have h1' : (if cur'.isSome then 1 else 0) ≤ 1 := by split <;> omega
            have h0 : (0:Nat) ≤ (if cur.isSome then 1 else 0) := by split <;> omega
            simp only [List.length_cons] at h1
            omega
          · have h1' : (if cur'.isSome then 1 else 0) ≤ 1 := by split <;> omega
            have h0 : (0:Nat) ≤ (if cur.isSome then 1 else 0) := by split <;> omega
            simp only [List.length_cons] at h2
            omega
        | reprocess qs' qn' =>
          apply ih
          · have hc := stepLine_isSome_of_reprocess hstep
            rw [hc] at h1
            simp only [if_true] at h1
            simp only [Option.isSome_none, Bool.false_eq_true, if_false]
            omega
          · have hc := stepLine_isSome_of_reprocess hstep
            rw [hc] at h2
            simp only [if_true] at h2
            simp only [Option.isSome_none, Bool.false_eq_true, if_false]
            omega

/-- C10 helper: with fuel `2 * length + 2` the loop always returns a result,
whatever the starting state. -/
theorem parseLoop_terminates (lines : List Line) (cur : Option Question)
    (qs : List Question) (qn : Nat) :
    (parseLoopFuel (2 * lines.length + 2) lines cur qs qn).isSome = true := by
  apply parseLoopFuel_isSome
  split <;> omega

/-- C10 (confirmed): `parse_questions` terminates on every finite input
line sequence: although a question-start line seen while a question is open
is reprocessed without advancing the index (`Step.reprocess`), that step
closes the open question, and the same line is necessarily consumed on the
next iteration; hence the loop index strictly increases within every two
consecutive iterations and fuel `2 * length + 2` always suffices — the
fuel-indexed loop returns a result (never `none`) and `parse_questions` is
total. -/
theorem parse_questions_terminates (lines : List Line) :
    (parseLoopFuel (2 * lines.length + 2) lines none [] 1).isSome = true ∧
      (∀ (cur : Option Question) (qs : List Question) (qn : Nat),
        (parseLoopFuel (2 * lines.length + 2) lines cur qs qn).isSome = true) ∧
      parse_questions lines =
        ((parseLoopFuel (2 * lines.length + 2) lines none [] 1).getD []).map
          (fun q => { q with options := normalizeOptions q.options }) := by
  refine ⟨parseLoop_terminates lines none [] 1,
    fun cur qs qn => parseLoop_terminates lines cur qs qn, ?_⟩
  unfold parse_questions
  cases heq : parseLoopFuel (2 * lines.length + 2) lines none [] 1 with
  | none =>
    have := parseLoop_terminates lines none [] 1
    rw [heq] at this
    simp at this
  | some qs => simp

/-! ## The numbering counters (C4, C5) -/

theorem numStep_self (st : NumCtState) (numId ilvl : Nat) :
    (numStep st numId ilvl).2 = st.counters numId ilvl + 1 ∧
      (numStep st numId ilvl).1.counters numId ilvl = st.counters numId ilvl + 1 := by
  unfold numStep
  by_cases hc : st.last numId = -1 ∨ (ilvl : Int) ≤ st.last numId
  · rw [if_pos hc]
    constructor <;> simp
  · rw [if_neg hc]
    constructor <;> simp

/-- C4 (confirmed): whenever a numbered paragraph's indent level is not
deeper than the last-seen level for its list id (or the list is new), the
counters of all strictly deeper levels of that list are discarded before
the paragraph's own level counter is incremented; consequently the indent
level sequence `[0, 1, 1, 0, 1]` emits the level-1 counter values
`[1, 2, 1]` (not `[1, 2, 3]`). -/
theorem c4_level_reset_discards_deeper :
    (∀ (st : NumCtState) (numId ilvl l : Nat),
        (st.last numId = -1 ∨ (ilvl : Int) ≤ st.last numId) → ilvl < l →
        (numStep st numId ilvl).1.counters numId l = 0) ∧
      ((([(1,0),(1,1),(1,1),(1,0),(1,1)] : List (Nat × Nat)).zip
            (numEmit [(1,0),(1,1),(1,1),(1,0),(1,1)])).filter
          (fun p => p.1.2 == 1)).map (fun p => p.2) = [1, 2, 1] := by
  constructor
  · intro st numId ilvl l hcond hl
    unfold numStep
    rw [if_pos hcond]
    have hne : ¬(l = ilvl) := by omega
    simp [hne, hl]
  · decide

/-- Witness for C4: from the initial state, a paragraph at level 0 of list 1
resets the level-3 counter of list 1 to zero. -/
theorem c4_witness : (numStep initNumCt 1 0).1.counters 1 3 = 0 :=
  c4_level_reset_discards_deeper.1 initNumCt 1 0 3 (Or.inl (by decide)) (by decide)

theorem numEmitFrom_replicate (numId ilvl : Nat) :
    ∀ (k : Nat) (st : NumCtState),
      numEmitFrom st (List.replicate k (numId, ilvl)) =
        List.range' (st.counters numId ilvl + 1) k := by
  intro k
  induction k with
  | zero => intro st; simp [numEmitFrom]
  | succ n ih =>
    intro st
    rw [List.replicate_succ, List.range'_succ]
    have hself := numStep_self st numId ilvl
    rw [numEmitFrom]
    rw [ih (numStep st numId ilvl).1, hself.1, hself.2]

/-- C5 (confirmed): for a single flat numbered list with decimal format at
one indent level, the counter values emitted by `process_docx`'s numbering
resolution are exactly `1, 2, 3, …` in paragraph order, and the rendered
decimal prefixes are `"1. ", "2. ", …` — independent of any numbering
values in the source document, which never enter the computation. -/
theorem c5_flat_decimal_sequence (k numId ilvl : Nat) :
    numEmit (List.replicate k (numId, ilvl)) = List.range' 1 k ∧
      (numEmit (List.replicate k (numId, ilvl))).map
          (fun n => convert_level_to_number n (some "decimal")) =
        (List.range' 1 k).map (fun n => (Nat.repr n).data) ∧
      (numEmit (List.replicate k (numId, ilvl))).map
          (fun n => convert_level_to_number n (some "decimal") ++ str ". ") =
        (List.range' 1 k).map (fun n => (Nat.repr n).data ++ str ". ") := by
  have h1 : numEmit (List.replicate k (numId, ilvl)) = List.range' 1 k := by
    unfold numEmit
    rw [numEmitFrom_replicate]
    rfl
  refine ⟨h1, ?_, ?_⟩ <;> rw [h1] <;> exact List.map_congr_left
    (fun n _ => by simp [convert_level_to_number])

/-! ## Option capacity (C7) -/

/-- C7 (confirmed): every question returned by `parse_questions` has an
option list of exactly five entries; `normalizeOptions` pads shorter
collected option lists with empty strings up to five and truncates longer
ones to their first five entries. -/
theorem c7_option_capacity :
    (∀ (lines : List Line) (q : Question), q ∈ parse_questions lines →
        q.options.length = 5) ∧
      (∀ opts : List Line, opts.length ≤ 5 →
        normalizeOptions opts = opts ++ List.replicate (5 - opts.length) []) ∧
      (∀ opts : List Line, 5 ≤ opts.length → normalizeOptions opts = opts.take 5) := by
  refine ⟨?_, ?_, ?_⟩
  · intro lines q hq
    unfold parse_questions at hq
    cases heq : parseLoopFuel (2 * lines.length + 2) lines none [] 1 with
    | none => rw [heq] at hq; simp at hq
    | some qs =>
      rw [heq] at hq
      simp only [List.mem_map] at hq
      obtain ⟨q', _, rfl⟩ := hq
      show (normalizeOptions q'.options).length = 5
      unfold normalizeOptions
      simp only [List.length_take, List.length_append, List.length_replicate]
      omega
  · intro opts h
    unfold normalizeOptions
    apply List.take_of_length_le
    simp only [List.length_append, List.length_replicate]
    omega
  · intro opts h
    unfold normalizeOptions
    have h0 : 5 - opts.length = 0 := by omega
    rw [h0]
    simp

/-- Witness for C7: the single question parsed from `["Question 1) Q?"]` has
exactly five options, and padding / truncation behave as stated on
concrete option lists. -/
theorem c7_witness :
    (⟨1, str "Question 1) Q?", [[], [], [], [], []]⟩ : Question).options.length = 5 ∧
      normalizeOptions [str "p"] = [str "p", [], [], [], []] ∧
      normalizeOptions [[], [], [], [], [], str "extra"] = [[], [], [], [], []] := by
  refine ⟨c7_option_capacity.1 [str "Question 1) Q?"] _ (by decide), ?_, ?_⟩
  · have h := c7_option_capacity.2.1 [str "p"] (by decide)
    simpa using h
  · have h := c7_option_capacity.2.2 [[], [], [], [], [], str "extra"] (by decide)
    simpa using h

/-! ## Missing answer key and Answer-line emission (C9) -/

theorem answerKeyTail_eq_none {lines : List Line}
    (h : ∀ l ∈ lines, answerKeyMarker l = false) : answerKeyTail lines = none := by
  induction lines with
  | nil => rfl
  | cons ln rest ih =>
    rw [answerKeyTail, if_neg (by simp [h ln (by simp)])]
    exact ih fun l hl => h l (by simp [hl])

theorem questionBlock_answer_line {q : Question} {answers : List Char} {l : Line}
    (hl : l ∈ questionBlock answers q) (h7 : l.take 7 = str "Answer:") :
    q.number - 1 < answers.length := by
  unfold questionBlock at hl
  rw [List.mem_append] at hl
  rcases hl with hl | hblank
  · rw [List.mem_append] at hl
    rcases hl with hl | hans
    · rw [List.mem_cons] at hl
      rcases hl with hq | hopt
      · subst hq
        have heq : ((str "Question " ++ (Nat.repr q.number).data ++ str ") " ++
            q.question).take 7) = str "Questio" := rfl
        rw [heq] at h7
        exact absurd h7 (by decide)
      · rw [List.mem_map] at hopt
        obtain ⟨p, hp, rfl⟩ := hopt
        have hp1 : p.1 ∈ letters := (List.of_mem_zip hp).1
        rw [List.cons_append, List.take_succ_cons] at h7
        have hhd : p.1 = 'A' := by
          have := congrArg (fun xs => List.headD xs 'z') h7
          simpa using this
        rw [hhd] at hp1
        exact absurd hp1 (by decide)
    · by_cases hcond : q.number - 1 < answers.length
      · exact hcond
      · rw [if_neg hcond] at hans
        simp at hans
  · rw [List.mem_singleton] at hblank
    subst hblank
    exact absurd h7 (by decide)

/-- C9 (confirmed): if no input line matches the answer-key marker then
`parse_answer_key` returns the empty answer list (and, being a total
function, raises nothing), and `create_output_doc` emits an `"Answer:"`
line inside a question's block exactly when the answer list has an entry
at index `number - 1`; in particular with an empty answer list no block
contains an `"Answer:"` line. -/
theorem c9_missing_answer_key :
    (∀ lines : List Line, (∀ l ∈ lines, answerKeyMarker l = false) →
        parse_answer_key lines = []) ∧
      (∀ (q : Question) (answers : List Char), 1 ≤ q.number →
        ((∃ l ∈ questionBlock answers q, l.take 7 = str "Answer:") ↔
          q.number - 1 < answers.length)) ∧
      (∀ (q : Question) (l : Line), l ∈ questionBlock [] q →
        l.take 7 ≠ str "Answer:") := by
  refine ⟨?_, ?_, ?_⟩
  · intro lines h
    unfold parse_answer_key
    rw [answerKeyTail_eq_none h]
  · intro q answers _
    constructor
    · rintro ⟨l, hl, h7⟩
      exact questionBlock_answer_line hl h7
    · intro hcond
      refine ⟨str "Answer: " ++ [answers.getD (q.number - 1) 'a'], ?_, rfl⟩
      unfold questionBlock
      rw [if_pos hcond]
      simp
  · intro q l hl h7
    have := questionBlock_answer_line hl h7
    simp at this

/-- Witness for C9: a line sequence with no answer-key marker yields no
answers, and a concrete question block with one answer contains an
`"Answer:"` line while one with no answers does not. -/
theorem c9_witness :
    parse_answer_key [str "Question 1) Q?", str "a. x"] = [] ∧
      (∃ l ∈ questionBlock ['a'] ⟨1, str "Q?", [str "x"]⟩, l.take 7 = str "Answer:") ∧
      ∀ l ∈ questionBlock [] ⟨1, str "Q?", [str "x"]⟩, l.take 7 ≠ str "Answer:" := by
  refine ⟨c9_missing_answer_key.1 _ (by decide), ?_, ?_⟩
  · exact (c9_missing_answer_key.2.1 ⟨1, str "Q?", [str "x"]⟩ ['a'] (by decide)).mpr
      (by decide)
  · intro l hl
    exact c9_missing_answer_key.2.2 ⟨1, str "Q?", [str "x"]⟩ l hl

/-! ## The answer-key fallback (C3) -/

/-- C3 (corrected): `parse_answer_key` has no fallback scan.  The concrete
bare-letter region `["b", "d", "a"]` is handled by the position-implicit
single-letter rule itself, and whenever no region line matches any of the
three positional rules (isolated letter, `digits`+`./)`+letter,
`digits`+spaces+letter), the scan returns the empty answer list rather
than falling back to collecting isolated letters from the region text. -/
theorem c3_no_fallback :
    parse_answer_key [str "Answer Key", str "b", str "d", str "a"] = ['b', 'd', 'a'] ∧
      (∀ region : List Line,
        (∀ l ∈ region, singleLetterAns (strip l) = false ∧
          numDotAns (strip l) = none ∧ numSpaceAns (strip l) = none) →
        answerScan region = []) := by
  constructor
  · decide
  · intro region h
    induction region with
    | nil => rfl
    | cons ln rest ih =>
      obtain ⟨h1, h2, h3⟩ := h ln (by simp)
      rw [answerScan]
      by_cases he : (strip ln).isEmpty = true
      · rw [if_pos he]
        exact ih fun l hl => h l (by simp [hl])
      · rw [if_neg he]
        by_cases hm : nonMcq (strip ln) = true
        · rw [if_pos hm]
        · rw [if_neg hm, if_neg (by simp [h1]), h2, h3]
          exact ih fun l hl => h l (by simp [hl])

/-- Witness for C3: no rule matches the region line `"x b"`, so the scan
yields no answers. -/
theorem c3_witness : answerScan [str "x b"] = [] :=
  c3_no_fallback.2 [str "x b"] (by decide)

/-- Counterexample for C3: on the answer region `["x b"]` the
position-implicit rules produce zero answers, the spec's fallback would
assign the isolated letter `b` to question 1, but the code returns the
empty answer list. -/
theorem c3_counterexample :
    parse_answer_key [str "Answer Key", str "x b"] = [] ∧
      specFallbackLetters [str "x b"] = ['b'] ∧
      ([] : List Char) ≠ ['b'] := by decide

/-! ## Orphan option lines (C2) -/

/-- C2 (corrected): an option-shaped line met with no open question and no
previously closed question is not ignored — the code creates a placeholder
question with empty question text whose first option is the cleaned line
(and no error is raised: the step is total). -/
theorem c2_orphan_option_placeholder :
    (∀ (ln : Line) (qn : Nat),
        (nonMcq ln || answerKeyMarker ln) = false →
        questionStart ln = false →
        ((optNumeric ln).isSome || (optLetter ln).isSome) = true →
        stepLine ln none [] qn =
          .next (some ⟨qn, [], [clean_option_text ln]⟩) [] (qn + 1)) ∧
      parse_questions [str "a. Paris"] = [⟨1, [], [str "Paris", [], [], [], []]⟩] := by
  constructor
  · intro ln qn h1 h2 h3
    simp [stepLine, h1, h2, h3]
  · decide

/-- Witness for C2: the orphan letter-option line `"a. Paris"` creates a
placeholder question. -/
theorem c2_witness :
    stepLine (str "a. Paris") none [] 1 =
      .next (some ⟨1, [], [clean_option_text (str "a. Paris")]⟩) [] 2 :=
  c2_orphan_option_placeholder.1 (str "a. Paris") 1 (by decide) (by decide) (by decide)

/-- Counterexample for C2: the claim says the line `"a. Paris"` (option-shaped,
no open question, no prior question) is ignored and creates no Question
record, but `parse_questions` returns one (placeholder) question for it. -/
theorem c2_counterexample : parse_questions [str "a. Paris"] ≠ [] := by decide

/-! ## The worked segmenter example (C1) -/

/-- C1 (corrected): on the worked example the segmenter produces exactly one
question whose option list is `["Paris", "Lyon", "Nice", "Reims", ""]` and
whose answer is `a` — but the stored question text is the entire line
`"Question 1) Capital of France?"`: the code never strips the
`"Question 1)"` prefix from the text. -/
theorem c1_example_segmentation :
    parse_questions
        [str "Question 1) Capital of France?", str "a. Paris", str "b. Lyon",
          str "c. Nice", str "d. Reims", str "Answer Key", str "1. a"] =
      [⟨1, str "Question 1) Capital of France?",
        [str "Paris", str "Lyon", str "Nice", str "Reims", []]⟩] ∧
      parse_answer_key
        [str "Question 1) Capital of France?", str "a. Paris", str "b. Lyon",
          str "c. Nice", str "d. Reims", str "Answer Key", str "1. a"] = ['a'] := by
  constructor
  · decide
  · decide

/-- Counterexample for C1: the claim's question text `"Capital of France?"`
is not what the code stores for this input. -/
theorem c1_counterexample :
    (parse_questions
        [str "Question 1) Capital of France?", str "a. Paris", str "b. Lyon",
          str "c. Nice", str "d. Reims", str "Answer Key", str "1. a"]).map
      Question.question ≠ [str "Capital of France?"] := by decide

/-! ## The non-MCQ marker (C6) -/

theorem parseLoopFuel_append_marker {m : Line}
    (hm : (nonMcq m || answerKeyMarker m) = true) (post : List Line) :
    ∀ (fuel : Nat) (pre : List Line) (cur : Option Question)
      (qs : List Question) (qn : Nat),
      2 * pre.length + (if cur.isSome then 1 else 0) + 1 ≤ fuel →
      parseLoopFuel fuel (pre ++ m :: post) cur qs qn =
        parseLoopFuel fuel pre cur qs qn := by
  intro fuel
  induction fuel with
  | zero => intro pre cur qs qn h; omega
  | succ f ih =>
    intro pre cur qs qn h
    match pre with
    | [] =>
      simp only [List.nil_append]
      have hstop := stepLine_stop hm cur qs qn
      conv_lhs => rw [parseLoopFuel, hstop]
      rfl
    | ln :: pre' =>
      simp only [List.cons_append]
      rw [parseLoopFuel, parseLoopFuel]
      cases hstep : stepLine ln cur qs qn with
      | stop => rfl
      | next cur' qs' qn' =>
        apply ih
        have h1 : (if cur'.isSome then 1 else 0) ≤ 1 := by split <;> omega
        have h0 : (0:Nat) ≤ (if cur.isSome then 1 else 0) := by split <;> omega
        simp only [List.length_cons] at h
        omega
      | reprocess qs' qn' =>
        have hc := stepLine_isSome_of_reprocess hstep
        rw [hc] at h
        simp only [if_true] at h
        have hgoal := ih (ln :: pre') none qs' qn' (by
          simp only [Option.isSome_none, Bool.false_eq_true, if_false,
            List.length_cons]
          simp only [List.length_cons] at h
          omega)
        simpa only [List.cons_append] using hgoal

theorem parse_questions_stops_at_marker {m : Line}
    (hm : (nonMcq m || answerKeyMarker m) = true) (pre post : List Line) :
    parse_questions (pre ++ m :: post) = parse_questions pre := by
  unfold parse_questions
  rw [parseLoopFuel_append_marker hm post _ pre none [] 1 (by
    simp only [Option.isSome_none, Bool.false_eq_true, if_false,
      List.length_append, List.length_cons]
    omega)]
  rw [parseLoopFuel_congr (2 * (pre ++ m :: post).length + 2) (2 * pre.length + 2)
    pre none [] 1
    (by simp only [Option.isSome_none, Bool.false_eq_true, if_false,
          List.length_append, List.length_cons]
        omega)
    (by simp only [Option.isSome_none, Bool.false_eq_true, if_false]
        omega)]

theorem findIdx_append_marker {pre : List Line} {m : Line}
    (hpre : ∀ l ∈ pre, nonMcq l = false) (hm : nonMcq m = true) (post : List Line) :
    (pre ++ m :: post).findIdx nonMcq = pre.length := by
  induction pre with
  | nil => simp [List.findIdx_cons, hm]
  | cons l pre' ih =>
    rw [List.cons_append, List.findIdx_cons]
    rw [hpre l (by simp)]
    simp only [cond_false, List.length_cons]
    rw [ih fun x hx => hpre x (by simp [hx])]

/-- C6 (corrected): the first non-MCQ marker line terminates question
parsing — all questions closed before it are kept, no line at or after the
marker is scanned for questions (even scanning the full list stops at the
marker), and every line from the marker to the end is emitted verbatim at
the end of the output; however `parse_answer_key` is run on the entire
line sequence, so lines at or after the marker ARE scanned for answers. -/
theorem c6_marker_terminates (pre : List Line) (m : Line) (post : List Line)
    (hm : nonMcq m = true) (hpre : ∀ l ∈ pre, nonMcq l = false) :
    (process_docx_plain (pre ++ m :: post)).nonMcqIndex = pre.length ∧
      (process_docx_plain (pre ++ m :: post)).questions = parse_questions pre ∧
      parse_questions (pre ++ m :: post) = parse_questions pre ∧
      (process_docx_plain (pre ++ m :: post)).output =
        (parse_questions pre).flatMap
            (questionBlock (parse_answer_key (pre ++ m :: post))) ++ (m :: post) ∧
      (process_docx_plain (pre ++ m :: post)).answers =
        parse_answer_key (pre ++ m :: post) := by
  have hidx : (pre ++ m :: post).findIdx nonMcq = pre.length :=
    findIdx_append_marker hpre hm post
  have htake : (pre ++ m :: post).take pre.length = pre := List.take_left pre (m :: post)
  have hdrop : (pre ++ m :: post).drop pre.length = m :: post := List.drop_left pre (m :: post)
  refine ⟨?_, ?_, ?_, ?_, ?_⟩
  · show (pre ++ m :: post).findIdx nonMcq = pre.length
    exact hidx
  · show parse_questions ((pre ++ m :: post).take ((pre ++ m :: post).findIdx nonMcq))
        = parse_questions pre
    rw [hidx, htake]
  · exact parse_questions_stops_at_marker (by rw [hm]; rfl) pre post
  · show create_output_doc
        (parse_questions ((pre ++ m :: post).take ((pre ++ m :: post).findIdx nonMcq)))
        (parse_answer_key (pre ++ m :: post)) ((pre ++ m :: post).findIdx nonMcq)
        (pre ++ m :: post) = _
    rw [hidx, htake]
    unfold create_output_doc
    rw [if_pos (by simp)]
    rw [hdrop]
  · rfl

/-- Witness for C6: a concrete document with one question, then an essay
marker, then an answer key in the tail. -/
theorem c6_witness :
    (process_docx_plain
        [str "Question 1) Q?", str "Essay part", str "Answer Key", str "1. b"]).questions
      = parse_questions [str "Question 1) Q?"] :=
  (c6_marker_terminates [str "Question 1) Q?"] (str "Essay part")
    [str "Answer Key", str "1. b"] (by decide) (by decide)).2.1

/-- Counterexample for C6: the claim says no line at or after the marker is
ever scanned for answers, but `process_docx` parses the answer key from
the full line list: here the answer `b` comes from a line after the
`"Essay part"` marker and an `"Answer: b"` line is emitted. -/
theorem c6_counterexample :
    (process_docx_plain
        [str "Question 1) Q?", str "Essay part", str "Answer Key", str "1. b"]).answers
        = ['b'] ∧
      parse_answer_key
        ([str "Question 1) Q?", str "Essay part", str "Answer Key", str "1. b"].take
          (process_docx_plain
            [str "Question 1) Q?", str "Essay part", str "Answer Key",
              str "1. b"]).nonMcqIndex) = [] ∧
      str "Answer: b" ∈ (process_docx_plain
        [str "Question 1) Q?", str "Essay part", str "Answer Key", str "1. b"]).output := by
  refine ⟨by decide, by decide, by decide⟩

/-! ## Round-tripping the normalized output (C8) -/

theorem isAE_props {a : Char} (ha : isAE a = true) :
    pySpace a = false ∧ a.isDigit = false := by
  unfold isAE at ha
  simp only [decide_eq_true_eq] at ha
  rcases ha with rfl | rfl | rfl | rfl | rfl | rfl | rfl | rfl | rfl | rfl <;>
    exact ⟨by decide, by decide⟩

theorem strip_nil : strip [] = [] := rfl

theorem list_length_five {α : Type} : ∀ {l : List α}, l.length = 5 →
    ∃ a b c d e, l = [a, b, c, d, e] := by
  intro l h
  match l with
  | [a, b, c, d, e] => exact ⟨a, b, c, d, e, rfl⟩
  | [] => simp at h
  | [_] => simp at h
  | [_, _] => simp at h
  | [_, _, _] => simp at h
  | [_, _, _, _] => simp at h
  | _ :: _ :: _ :: _ :: _ :: _ :: t =>
    simp only [List.length_cons] at h
    omega

theorem questionStart_questionLine (r : Line) :
    questionStart (str "Question " ++ r) = true := rfl

theorem optNumeric_questionLine (r : Line) :
    optNumeric (str "Question " ++ r) = none := rfl

theorem optLetter_questionLine (r : Line) :
    optLetter (str "Question " ++ r) = none := rfl

theorem questionLine_assoc (x y z : Line) :
    str "Question " ++ x ++ y ++ z = str "Question " ++ (x ++ (y ++ z)) := by
  simp [List.append_assoc]

theorem optNumeric_letter {a : Char} (ha : isAE a = true) (rest : Line) :
    optNumeric (a :: rest) = none := by
  obtain ⟨hsp, hdig⟩ := isAE_props ha
  simp [optNumeric, List.dropWhile_cons, List.takeWhile_cons, hsp, hdig]

theorem optLetter_letterLine {a : Char} (ha : isAE a = true) {o : Line}
    (ho : o ≠ []) (hh : pySpace (o.headD 'x') = false) :
    optLetter (a :: str ". " ++ o) = some o := by
  obtain ⟨hsp, _⟩ := isAE_props ha
  cases o with
  | nil => exact absurd rfl ho
  | cons c cs =>
    simp only [List.headD_eq_head?_getD, List.head?_cons, Option.getD_some] at hh
    show optLetter (a :: '.' :: ' ' :: c :: cs) = some (c :: cs)
    have hspace : pySpace ' ' = true := rfl
    simp [optLetter, List.dropWhile_cons, List.takeWhile_cons, hsp, ha, hspace, hh]

theorem getLastD_letterLine {a : Char} {o : Line} (ho : o ≠ []) :
    (a :: str ". " ++ o).getLastD 'x' = o.getLastD 'x' := by
  cases o with
  | nil => exact absurd rfl ho
  | cons c cs =>
    show ((a :: '.' :: ' ' :: c :: cs).getLastD 'x') = (c :: cs).getLastD 'x'
    simp [List.getLastD_cons]

theorem strip_letterLine {a : Char} (ha : isAE a = true) {o : Line}
    (ho : o ≠ []) (ht : strip o = o) :
    strip (a :: str ". " ++ o) = a :: str ". " ++ o := by
  obtain ⟨hsp, _⟩ := isAE_props ha
  apply strip_eq_self
  · simp only [List.cons_append, List.headD_eq_head?_getD, List.head?_cons,
      Option.getD_some]
    exact hsp
  · rw [getLastD_letterLine ho]
    exact (strip_self_facts ht).2

theorem clean_letterLine {a : Char} (ha : isAE a = true) {o : Line}
    (ho : o ≠ []) (ht : strip o = o) :
    clean_option_text (a :: str ". " ++ o) = o := by
  unfold clean_option_text
  simp only [strip_letterLine ha ho ht,
    optLetter_letterLine ha ho (strip_self_facts ht).1]
  exact ht

theorem stepLine_some_option {ln : Line} {c : Question} {qs : List Question} {qn : Nat}
    (hm : (nonMcq ln || answerKeyMarker ln) = false)
    (hopt : ((optNumeric ln).isSome || (optLetter ln).isSome) = true) :
    stepLine ln (some c) qs qn =
      .next (some { c with options := c.options ++ [clean_option_text ln] }) qs qn := by
  simp [stepLine, hm, hopt]

theorem stepLine_some_qstart {ln : Line} {c : Question} {qs : List Question} {qn : Nat}
    (hm : (nonMcq ln || answerKeyMarker ln) = false)
    (hnum : optNumeric ln = none) (hlet : optLetter ln = none)
    (hq : questionStart ln = true) :
    stepLine ln (some c) qs qn = .reprocess (qs ++ [c]) qn := by
  simp [stepLine, hm, hnum, hlet, hq]

theorem stepLine_none_qstart {ln : Line} {qs : List Question} {qn : Nat}
    (hm : (nonMcq ln || answerKeyMarker ln) = false)
    (hq : questionStart ln = true) :
    stepLine ln none qs qn = .next (some ⟨qn, strip ln, []⟩) qs (qn + 1) := by
  simp [stepLine, hm, hq]

theorem loopFuel_next {f : Nat} {ln : Line} {rest : List Line}
    {cur cur' : Option Question} {qs qs' : List Question} {qn qn' : Nat}
    (h : stepLine ln cur qs qn = .next cur' qs' qn') :
    parseLoopFuel (f + 1) (ln :: rest) cur qs qn = parseLoopFuel f rest cur' qs' qn' := by
  rw [parseLoopFuel, h]

theorem loopFuel_reprocess {f : Nat} {ln : Line} {rest : List Line}
    {cur : Option Question} {qs qs' : List Question} {qn qn' : Nat}
    (h : stepLine ln cur qs qn = .reprocess qs' qn') :
    parseLoopFuel (f + 1) (ln :: rest) cur qs qn =
      parseLoopFuel f (ln :: rest) none qs' qn' := by
  rw [parseLoopFuel, h]

theorem questionBlock_empty_answers (q : Question) :
    questionBlock [] q =
      (str "Question " ++ (Nat.repr q.number).data ++ str ") " ++ q.question) ::
        ((letters.zip q.options).map (fun p => p.1 :: str ". " ++ p.2) ++ [[]]) := by
  unfold questionBlock
  simp

theorem outQuestionLines_eq (qs : List Question) :
    outQuestionLines qs = qs.flatMap (questionBlock []) := by
  simp [outQuestionLines, create_output_doc]

theorem stepLine_blank_cont {n : Nat} {t : Line} {os : List Line}
    {qs : List Question} {qn : Nat} (hne : os ≠ []) :
    stepLine [] (some ⟨n, t, os⟩) qs qn =
      .next (some ⟨n, t, os.dropLast ++ [strip (os.getLastD [] ++ [' '])]⟩) qs qn := by
  simp [stepLine, hne, show nonMcq [] = false from rfl,
    show answerKeyMarker [] = false from rfl, show optNumeric [] = none from rfl,
    show optLetter [] = none from rfl, show questionStart [] = false from rfl,
    show strip [] = ([] : Line) from rfl]

theorem parseLoop_one_block (q : Question) (rest : List Line) (acc : List Question)
    (qn fuel : Nat)
    (h5 : q.options.length = 5)
    (hopt : ∀ o ∈ q.options, o ≠ [] ∧ strip o = o)
    (hmark : ∀ l ∈ questionBlock [] q, nonMcq l = false ∧ answerKeyMarker l = false) :
    ∃ c : Question,
      parseLoopFuel (fuel + 7) (questionBlock [] q ++ rest) none acc qn =
        parseLoopFuel fuel rest (some c) acc (qn + 1) ∧
      c.options = q.options := by
  obtain ⟨o1, o2, o3, o4, o5, hopts⟩ := list_length_five h5
  have ho1 := hopt o1 (by rw [hopts]; simp)
  have ho2 := hopt o2 (by rw [hopts]; simp)
  have ho3 := hopt o3 (by rw [hopts]; simp)
  have ho4 := hopt o4 (by rw [hopts]; simp)
  have ho5 := hopt o5 (by rw [hopts]; simp)
  have hblock : questionBlock [] q =
      (str "Question " ++ (Nat.repr q.number).data ++ str ") " ++ q.question) ::
        ('a' :: str ". " ++ o1) :: ('b' :: str ". " ++ o2) :: ('c' :: str ". " ++ o3) ::
        ('d' :: str ". " ++ o4) :: ('e' :: str ". " ++ o5) :: [[]] := by
    rw [questionBlock_empty_answers, hopts]
    simp [letters]
  have hm0 := hmark _ (by rw [hblock]; exact List.mem_cons_self _ _)
  have hm1 := hmark ('a' :: str ". " ++ o1) (by rw [hblock]; simp)
  have hm2 := hmark ('b' :: str ". " ++ o2) (by rw [hblock]; simp)
  have hm3 := hmark ('c' :: str ". " ++ o3) (by rw [hblock]; simp)
  have hm4 := hmark ('d' :: str ". " ++ o4) (by rw [hblock]; simp)
  have hm5 := hmark ('e' :: str ". " ++ o5) (by rw [hblock]; simp)
  have hlines : questionBlock [] q ++ rest =
      (str "Question " ++ (Nat.repr q.number).data ++ str ") " ++ q.question) ::
        ('a' :: str ". " ++ o1) :: ('b' :: str ". " ++ o2) :: ('c' :: str ". " ++ o3) ::
        ('d' :: str ". " ++ o4) :: ('e' :: str ". " ++ o5) :: [] :: rest := by
    rw [hblock]
    rfl
  have hmq : (nonMcq (str "Question " ++ (Nat.repr q.number).data ++ str ") " ++ q.question) ||
      answerKeyMarker (str "Question " ++ (Nat.repr q.number).data ++ str ") " ++ q.question))
        = false := by rw [hm0.1, hm0.2]; rfl
  have hq0 : questionStart
      (str "Question " ++ (Nat.repr q.number).data ++ str ") " ++ q.question) = true := by
    rw [questionLine_assoc]
    exact questionStart_questionLine _
  have hma1 : (nonMcq ('a' :: str ". " ++ o1) || answerKeyMarker ('a' :: str ". " ++ o1))
      = false := by rw [hm1.1, hm1.2]; rfl
  have hma2 : (nonMcq ('b' :: str ". " ++ o2) || answerKeyMarker ('b' :: str ". " ++ o2))
      = false := by rw [hm2.1, hm2.2]; rfl
  have hma3 : (nonMcq ('c' :: str ". " ++ o3) || answerKeyMarker ('c' :: str ". " ++ o3))
      = false := by rw [hm3.1, hm3.2]; rfl
  have hma4 : (nonMcq ('d' :: str ". " ++ o4) || answerKeyMarker ('d' :: str ". " ++ o4))
      = false := by rw [hm4.1, hm4.2]; rfl
  have hma5 : (nonMcq ('e' :: str ". " ++ o5) || answerKeyMarker ('e' :: str ". " ++ o5))
      = false := by rw [hm5.1, hm5.2]; rfl
  have hoa1 : ((optNumeric ('a' :: str ". " ++ o1)).isSome ||
      (optLetter ('a' :: str ". " ++ o1)).isSome) = true := by
    rw [optLetter_letterLine (show isAE 'a' = true from rfl) ho1.1 (strip_self_facts ho1.2).1]
    simp
  have hoa2 : ((optNumeric ('b' :: str ". " ++ o2)).isSome ||
      (optLetter ('b' :: str ". " ++ o2)).isSome) = true := by
    rw [optLetter_letterLine (show isAE 'b' = true from rfl) ho2.1 (strip_self_facts ho2.2).1]
    simp
  have hoa3 : ((optNumeric ('c' :: str ". " ++ o3)).isSome ||
      (optLetter ('c' :: str ". " ++ o3)).isSome) = true := by
    rw [optLetter_letterLine (show isAE 'c' = true from rfl) ho3.1 (strip_self_facts ho3.2).1]
    simp
  have hoa4 : ((optNumeric ('d' :: str ". " ++ o4)).isSome ||
      (optLetter ('d' :: str ". " ++ o4)).isSome) = true := by
    rw [optLetter_letterLine (show isAE 'd' = true from rfl) ho4.1 (strip_self_facts ho4.2).1]
    simp
  have hoa5 : ((optNumeric ('e' :: str ". " ++ o5)).isSome ||
      (optLetter ('e' :: str ". " ++ o5)).isSome) = true := by
    rw [optLetter_letterLine (show isAE 'e' = true from rfl) ho5.1 (strip_self_facts ho5.2).1]
    simp
  rw [hlines]
  rw [loopFuel_next (stepLine_none_qstart hmq hq0)]
  rw [loopFuel_next (stepLine_some_option hma1 hoa1)]
  rw [loopFuel_next (stepLine_some_option hma2 hoa2)]
  rw [loopFuel_next (stepLine_some_option hma3 hoa3)]
  rw [loopFuel_next (stepLine_some_option hma4 hoa4)]
  rw [loopFuel_next (stepLine_some_option hma5 hoa5)]
  rw [clean_letterLine (show isAE 'a' = true from rfl) ho1.1 ho1.2,
    clean_letterLine (show isAE 'b' = true from rfl) ho2.1 ho2.2,
    clean_letterLine (show isAE 'c' = true from rfl) ho3.1 ho3.2,
    clean_letterLine (show isAE 'd' = true from rfl) ho4.1 ho4.2,
    clean_letterLine (show isAE 'e' = true from rfl) ho5.1 ho5.2]
  simp only [List.nil_append, List.cons_append, List.append_nil]
  rw [loopFuel_next (stepLine_blank_cont
    (show ([o1, o2, o3, o4, o5] : List Line) ≠ [] from by simp))]
  refine ⟨_, rfl, ?_⟩
  have hlast : ([o1, o2, o3, o4, o5] : List Line).getLastD [] = o5 := rfl
  have hdrop : ([o1, o2, o3, o4, o5] : List Line).dropLast = [o1, o2, o3, o4] := rfl
  simp only [hopts, hlast, hdrop, strip_append_space ho5.1 ho5.2]
  simp

theorem parseLoop_roundtrip_blocks :
    ∀ (qs : List Question) (acc : List Question) (qn fuel : Nat),
      (∀ q ∈ qs, q.options.length = 5) →
      (∀ q ∈ qs, ∀ o ∈ q.options, o ≠ [] ∧ strip o = o) →
      (∀ l ∈ qs.flatMap (questionBlock []),
        nonMcq l = false ∧ answerKeyMarker l = false) →
      ∃ qs2 : List Question,
        parseLoopFuel (fuel + (8 * qs.length + 1)) (qs.flatMap (questionBlock []))
            none acc qn = some (acc ++ qs2) ∧
          qs2.map Question.options = qs.map Question.options := by
  intro qs
  induction qs with
  | nil =>
    intro acc qn fuel _ _ _
    exact ⟨[], by simp [parseLoopFuel], rfl⟩
  | cons q qs' ih =>
    intro acc qn fuel h5 hopt hmark
    rw [List.flatMap_cons]
    have harith : fuel + (8 * (q :: qs').length + 1) =
        (fuel + (8 * qs'.length + 1) + 1) + 7 := by
      simp only [List.length_cons]
      ring
    rw [harith]
    obtain ⟨c, hc, hcopts⟩ := parseLoop_one_block q (qs'.flatMap (questionBlock []))
      acc qn (fuel + (8 * qs'.length + 1) + 1)
      (h5 q (by simp)) (hopt q (by simp))
      (fun l hl => hmark l (by rw [List.flatMap_cons]; exact List.mem_append_left _ hl))
    rw [hc]
    cases qs' with
    | nil =>
      refine ⟨[c], by simp [parseLoopFuel], ?_⟩
      simp [hcopts]
    | cons q2 rest2 =>
      have hm2 := hmark (str "Question " ++ (Nat.repr q2.number).data ++ str ") " ++
          q2.question)
        (by
          rw [List.flatMap_cons]
          refine List.mem_append_right _ ?_
          rw [List.flatMap_cons, questionBlock_empty_answers q2]
          exact List.mem_append_left _ (List.mem_cons_self _ _))
      have hmq2 : (nonMcq (str "Question " ++ (Nat.repr q2.number).data ++ str ") " ++
          q2.question) || answerKeyMarker (str "Question " ++ (Nat.repr q2.number).data ++
          str ") " ++ q2.question)) = false := by rw [hm2.1, hm2.2]; rfl
      have hn2 : optNumeric (str "Question " ++ (Nat.repr q2.number).data ++ str ") " ++
          q2.question) = none := by
        rw [questionLine_assoc]
        exact optNumeric_questionLine _
      have hl2 : optLetter (str "Question " ++ (Nat.repr q2.number).data ++ str ") " ++
          q2.question) = none := by
        rw [questionLine_assoc]
        exact optLetter_questionLine _
      have hq2 : questionStart (str "Question " ++ (Nat.repr q2.number).data ++ str ") " ++
          q2.question) = true := by
        rw [questionLine_assoc]
        exact questionStart_questionLine _
      have hhead : (q2 :: rest2).flatMap (questionBlock []) =
          (str "Question " ++ (Nat.repr q2.number).data ++ str ") " ++ q2.question) ::
            (((letters.zip q2.options).map (fun p => p.1 :: str ". " ++ p.2) ++ [[]]) ++
              rest2.flatMap (questionBlock [])) := by
        rw [List.flatMap_cons, questionBlock_empty_answers q2, List.cons_append]
      rw [hhead]
      rw [loopFuel_reprocess (stepLine_some_qstart hmq2 hn2 hl2 hq2)]
      rw [← hhead]
      obtain ⟨qs2', h1, h2⟩ := ih (acc ++ [c]) (qn + 1) fuel
        (fun x hx => h5 x (by simp [hx])) (fun x hx => hopt x (by simp [hx]))
        (fun l hl => hmark l (by rw [List.flatMap_cons]; exact List.mem_append_right _ hl))
      rw [h1]
      refine ⟨c :: qs2', by simp, ?_⟩
      simp [h2, hcopts]

theorem questionBlock_length_of_five {q : Question} (h : q.options.length = 5) :
    (questionBlock [] q).length = 7 := by
  rw [questionBlock_empty_answers]
  simp [letters, h]

theorem outQuestionLines_length {qs : List Question}
    (h5 : ∀ q ∈ qs, q.options.length = 5) :
    (qs.flatMap (questionBlock [])).length = 7 * qs.length := by
  induction qs with
  | nil => simp
  | cons q qs' ih =>
    rw [List.flatMap_cons]
    simp only [List.length_append, List.length_cons]
    rw [questionBlock_length_of_five (h5 q (by simp)),
      ih (fun x hx => h5 x (by simp [hx]))]
    ring

/-- C8 (corrected): running `parse_questions` on the normalized output lines
`create_output_doc` generates (question lines followed by lettered option
lines) reproduces the question count and the exact option lists, provided
the answer list is empty (no `"Answer:"` lines are emitted), every option
of every question is a nonempty whitespace-trimmed string, and no emitted
line contains a non-MCQ or answer-key marker.  Without the nonempty-option
proviso the claim fails: an empty padded slot is emitted as `"e. "`, which
re-parses as the option text `"e."`. -/
theorem c8_roundtrip (qs : List Question)
    (h5 : ∀ q ∈ qs, q.options.length = 5)
    (hopt : ∀ q ∈ qs, ∀ o ∈ q.options, o ≠ [] ∧ strip o = o)
    (hmark : ∀ l ∈ outQuestionLines qs,
      nonMcq l = false ∧ answerKeyMarker l = false) :
    (parse_questions (outQuestionLines qs)).length = qs.length ∧
      (parse_questions (outQuestionLines qs)).map Question.options =
        qs.map Question.options := by
  rw [outQuestionLines_eq] at hmark ⊢
  have hlen : (qs.flatMap (questionBlock [])).length = 7 * qs.length :=
    outQuestionLines_length h5
  have hfuel : 2 * (qs.flatMap (questionBlock [])).length + 2 =
      (6 * qs.length + 1) + (8 * qs.length + 1) := by
    rw [hlen]
    ring
  obtain ⟨qs2, h1, h2⟩ := parseLoop_roundtrip_blocks qs [] 1 (6 * qs.length + 1)
    h5 hopt hmark
  unfold parse_questions
  rw [hfuel, h1]
  simp only [List.nil_append]
  have hlen5 : ∀ q ∈ qs2, q.options.length = 5 := by
    intro q hq
    have : q.options ∈ qs2.map Question.options := List.mem_map_of_mem _ hq
    rw [h2] at this
    obtain ⟨q', hq', heq⟩ := List.mem_map.mp this
    rw [← heq]
    exact h5 q' hq'
  constructor
  · rw [List.length_map]
    have := congrArg List.length h2
    simpa using this
  · rw [List.map_map]
    have hcongr : qs2.map (Question.options ∘ fun q =>
        { q with options := normalizeOptions q.options }) = qs2.map Question.options := by
      apply List.map_congr_left
      intro q hq
      show normalizeOptions q.options = q.options
      unfold normalizeOptions
      rw [hlen5 q hq]
      simp
      simp [hlen5 q hq]
    rw [hcongr, h2]

/-- Witness for C8: a concrete question list with five nonempty trimmed
options round-trips through the normalized output. -/
theorem c8_witness :
    (parse_questions (outQuestionLines
        [⟨1, str "Ok?", [str "p", str "q", str "r", str "s", str "t"]⟩])).map
      Question.options =
      [⟨1, str "Ok?", [str "p", str "q", str "r", str "s", str "t"]⟩].map
        Question.options :=
  (c8_roundtrip [⟨1, str "Ok?", [str "p", str "q", str "r", str "s", str "t"]⟩]
    (by decide) (by decide) (by decide)).2

/-- Counterexample for C8: for the parsed input `["Question 1) Q?", "a. x"]`
the question's padded empty options are emitted as `"b. "` … `"e. "`, and
re-parsing the generated output yields the option `"b."`, which is not an
option of the original question — the option sets differ. -/
theorem c8_counterexample :
    (parse_questions (process_docx_plain
          [str "Question 1) Q?", str "a. x"]).output).map Question.options =
        [[str "x", str "b.", str "c.", str "d.", str "e."]] ∧
      ((process_docx_plain [str "Question 1) Q?", str "a. x"]).questions).map
          Question.options = [[str "x", [], [], [], []]] ∧
      ([[str "x", str "b.", str "c.", str "d.", str "e."]] : List (List Line)) ≠
        [[str "x", [], [], [], []]] := by
  refine ⟨by decide, by decide, by decide⟩
